import Mathlib

/-!
Verification development for the diachronic word-embedding backend of the
semantic-shift repository (`backend/app/models/word2vec.py` and
`backend/app/api/v1/endpoints/word2vec.py`).

Shallow embedding conventions:
* a numpy row of dimension `d` is `Fin d → K` for a field `K` (the source's
  float arithmetic is idealized as exact field arithmetic; a small finite
  field with kernel-computable operations is used for concrete evaluations,
  and the reals where order/square roots are needed);
* a gensim model object is an entry of an explicit store
  (model reference → word → optional vector), so that Python aliasing and
  in-place mutation of `model.wv` are observable;
* `np.linalg.svd` is an oracle parameter returning the pair `(U, Vt)` —
  the code discards the singular values;
* filesystem effects and the registry dictionary are explicit state.
-/

set_option maxHeartbeats 1000000

set_option linter.unusedVariables false

/-- A `d`-dimensional vector over `K` (one row of a numpy matrix). -/
abbrev Vec (d : ℕ) (K : Type) : Type := Fin d → K

/-- A `d × d` matrix over `K` (the shapes of `U`, `Vt` and `R` in
`_procrustes_align`). -/
abbrev Sq (d : ℕ) (K : Type) : Type := Fin d → Fin d → K

/-- Matrix product of two square matrices (`U @ Vt`). -/
def sqMul {d : ℕ} {K : Type} [Field K] (A B : Sq d K) : Sq d K :=
  fun i j => ∑ k, A i k * B k j

/-- `np.mean(rows, axis=0)` for a matrix given as its list of rows. -/
def colMean {d : ℕ} {K : Type} [Field K] (rows : List (Vec d K)) : Vec d K :=
  fun j => (rows.map (fun v => v j)).sum / (rows.length : K)

/-- `rows - np.mean(rows, axis=0)`: subtract the column mean from every row. -/
def centerRows {d : ℕ} {K : Type} [Field K] (rows : List (Vec d K)) : List (Vec d K) :=
  rows.map (fun v j => v j - colMean rows j)

/-- `a.T @ b` for two row-lists of equal length: the `d × d` matrix with
entry `(j, k)` equal to `∑ i, a i j * b i k`. -/
def tmul {d : ℕ} {K : Type} [Field K] (a b : List (Vec d K)) : Sq d K :=
  fun j k => ((a.zip b).map (fun p => p.1 j * p.2 k)).sum

/-- `_procrustes_align` (word2vec.py lines 365-380): center both matrices,
take `(U, Vt)` from the SVD oracle applied to
`target_centered.T @ source_centered`, set `R = U @ Vt`, and return
`source_centered @ R.T + np.mean(target, axis=0)` row by row. -/
def procrustes_align {d : ℕ} {K : Type} [Field K]
    (svd : Sq d K → Sq d K × Sq d K) (source target : List (Vec d K)) :
    List (Vec d K) :=
  let source_centered := centerRows source
  let target_centered := centerRows target
  let uvt := svd (tmul target_centered source_centered)
  let R := sqMul uvt.1 uvt.2
  source_centered.map (fun v j => (∑ k, v k * R j k) + colMean target j)

/-- Modelled from the spec's wording of the Procrustes step (spec §4.3, step 5):
mean-center the anchor-word vector matrices of source and target; take `U, Vt`
from the singular value decomposition of `target_centered^T · source_centered`;
rotation `R = U V^T`; return `aligned = source_centered · R^T + mean(target)`.
To be compared against `procrustes_align`, which is translated from the code. -/
def procrustes_align_specform {d : ℕ} {K : Type} [Field K]
    (svd : Sq d K → Sq d K × Sq d K) (source target : List (Vec d K)) :
    List (Vec d K) :=
  let sc := source.map (fun v j => v j - colMean source j)
  let tc := target.map (fun v j => v j - colMean target j)
  let p := svd (tmul tc sc)
  let R := sqMul p.1 p.2
  sc.map (fun v j => (∑ k, v k * R j k) + colMean target j)

/-- The rotation-plus-translation map that the Procrustes step applies to each
anchor row, expressed as a function on an arbitrary vector:
`v ↦ (v - mean(source)) · R^T + mean(target)` with `R` fitted on the anchor
matrices. A vector is "in the rotated coordinate system" iff it is the image
of the pre-alignment vector under this map. -/
def procrustes_transform {d : ℕ} {K : Type} [Field K]
    (svd : Sq d K → Sq d K × Sq d K) (source target : List (Vec d K))
    (v : Vec d K) : Vec d K :=
  let uvt := svd (tmul (centerRows target) (centerRows source))
  let R := sqMul uvt.1 uvt.2
  fun j => (∑ k, (v k - colMean source k) * R j k) + colMean target j

/-- A gensim model's vector table `model.wv`: word → optional vector. -/
abbrev WV (d : ℕ) (K : Type) : Type := String → Option (Vec d K)

/-- The heap of live gensim model objects, addressed by reference. Two
`Word2VecModel` wrappers holding the same reference alias one mutable
underlying model, exactly as two Python variables holding one object do. -/
abbrev Store (d : ℕ) (K : Type) : Type := ℕ → WV d K

/-- The `Word2VecModel` wrapper (word2vec.py lines 29-37): a slice index plus
the wrapped gensim model, the latter represented by its store reference.
(`created_at`, `vector_dim` and `vocab_size` play no role in the claims.) -/
structure W2VModel where
  index : String
  modelRef : ℕ
deriving DecidableEq

/-- `model.wv[word] = vec` executed on the model object `ref`: a store update. -/
def storeWrite {d : ℕ} {K : Type} (st : Store d K) (ref : ℕ) (w : String)
    (v : Vec d K) : Store d K :=
  fun r w' => if r = ref ∧ w' = w then some v else st r w'

/-- The write-back loop of `_align_single_model` (word2vec.py lines 354-357):
write each aligned vector into the source model object, in order. -/
def writeAligned {d : ℕ} {K : Type} (st : Store d K) (ref : ℕ) :
    List (String × Vec d K) → Store d K
  | [] => st
  | (w, v) :: rest => writeAligned (storeWrite st ref w v) ref rest

/-- The vector-collection loop of `_align_single_model` (word2vec.py lines
327-335): for each common word present in both models' vocabularies, the pair
(source vector, target vector); words missing from either side are skipped. -/
def anchorPairs {d : ℕ} {K : Type} (st : Store d K) (source target : W2VModel)
    (common_words : List String) : List (Vec d K × Vec d K) :=
  common_words.filterMap (fun w =>
    match st source.modelRef w, st target.modelRef w with
    | some sv, some tv => some (sv, tv)
    | _, _ => none)

/-- `_align_single_model` (word2vec.py lines 318-363): collect the vectors of
the common words present in both vocabularies, return `none` below 10 pairs,
otherwise Procrustes-align the anchor matrices and write the aligned anchor
vectors back into the source model object (`aligned_model` wraps
`source_model.model` itself, so the writes mutate the source model in place).
Returns the updated store and the optional wrapper. -/
def align_single_model {d : ℕ} {K : Type} [Field K]
    (svd : Sq d K → Sq d K × Sq d K) (st : Store d K)
    (source target : W2VModel) (common_words : List String) :
    Store d K × Option W2VModel :=
  let pairs := anchorPairs st source target common_words
  if pairs.length < 10 then (st, none)
  else
    let aligned := procrustes_align svd (pairs.map Prod.fst) (pairs.map Prod.snd)
    let st2 := writeAligned st source.modelRef (common_words.zip aligned)
    (st2, some ⟨source.index, source.modelRef⟩)

/-- The whitespace characters Python's no-argument `str.split()` splits on
(ASCII fragment; the corpora handled by the claims are ASCII). -/
def isSpaceChar (c : Char) : Bool :=
  c = ' ' ∨ c = '\t' ∨ c = '\n' ∨ c = '\r' ∨ c = '\x0b' ∨ c = '\x0c'

/-- Worker for `splitWs`: `acc` holds the current word reversed. -/
def splitWsGo : List Char → List Char → List (List Char)
  | [], acc => if acc.isEmpty then [] else [acc.reverse]
  | c :: cs, acc =>
    if isSpaceChar c then
      if acc.isEmpty then splitWsGo cs [] else acc.reverse :: splitWsGo cs []
    else splitWsGo cs (c :: acc)

/-- Python's `text.split()`: split on runs of whitespace, no empty words. -/
def splitWs (s : List Char) : List (List Char) := splitWsGo s []

/-- The character set of `token.strip('.,!?;:()[]{}"\'-')` in
`_preprocess_texts` (word2vec.py line 188). -/
def stripSet : List Char :=
  ['.', ',', '!', '?', ';', ':', '(', ')', '[', ']', '\x7b', '\x7d', '\"', '\'', '-']

/-- Python's `token.strip(chars)`: drop characters of the set from both ends. -/
def pstrip (t : List Char) : List Char :=
  ((t.dropWhile (fun c => stripSet.contains c)).reverse.dropWhile
    (fun c => stripSet.contains c)).reverse

/-- `_preprocess_texts` (word2vec.py lines 181-191): per document, lower-case,
split on whitespace, keep tokens whose raw length exceeds 2, then strip the
boundary punctuation set from each kept token; drop documents whose resulting
token list is empty. Note the order: the length test is applied to the raw
token, before stripping. -/
def preprocess_texts (texts : List (List Char)) : List (List (List Char)) :=
  texts.filterMap (fun text =>
    let tokens :=
      ((splitWs (text.map Char.toLower)).filter (fun w => 2 < w.length)).map pstrip
    if tokens.isEmpty then none else some tokens)

/-- Filesystem state relevant to `train_cade`: the files under the `temp`
directory and the files under the `model` directory. -/
structure CadeFs where
  tempFiles : List String
  modelFiles : List String
deriving DecidableEq

/-- Environment oracles for `train_cade`: whether the CADE library imported
(word2vec.py lines 16-22), whether `aligner.train_compass` raises, and which
slice indexes `aligner.train_slice` raises on. -/
structure CadeEnv where
  cadeAvailable : Bool
  compassRaises : Bool
  sliceRaises : String → Bool

/-- Path of the per-slice corpus file `temp/cade_<index>.txt`. -/
def slicePath (idx : String) : String := "temp/cade_" ++ idx ++ ".txt"

/-- Path of the saved slice model `model/cade_<index>.model`. -/
def modelPath (idx : String) : String := "model/cade_" ++ idx ++ ".model"

/-- `train_cade` (word2vec.py lines 525-652), filesystem effects and result.
The body is one big `try`: slice files and the compass file are written under
`temp/`; a raise from `train_compass` is caught by the outer `except`, which
returns `False` without touching the files; per-slice raises are caught by the
inner `except` and skipped; `shutil.rmtree(temp_dir)` empties `temp/` only on
the path that falls through to the end of the `try` body. Returns
`successful_slices > 0` together with the final filesystem state. -/
def train_cade (env : CadeEnv) (papers : List String) (fs : CadeFs) :
    Bool × CadeFs :=
  if !env.cadeAvailable then (false, fs)
  else
    let fs1 : CadeFs :=
      { fs with tempFiles := fs.tempFiles ++ papers.map slicePath ++ ["temp/compass.txt"] }
    if env.compassRaises then (false, fs1)
    else
      let ok := papers.filter (fun idx => !env.sliceRaises idx)
      let fs2 : CadeFs := { fs1 with modelFiles := fs1.modelFiles ++ ok.map modelPath }
      let fs3 : CadeFs := { fs2 with tempFiles := [] }
      (0 < ok.length, fs3)

/-- The registry dictionary `self.models` of `ModelManager`, at the
bookkeeping level: an insertion-ordered association list from slice index to
an abstract space identifier (Python dicts preserve insertion order). -/
abbrev Spaces : Type := List (String × ℕ)

/-- `self.models[index] = model` on a Python dict: overwrite the value in
place when the key exists, append the key otherwise. -/
def upsert (m : Spaces) (k : String) (v : ℕ) : Spaces :=
  if m.any (fun p => p.1 = k) then m.map (fun p => if p.1 = k then (k, v) else p)
  else m ++ [(k, v)]

/-- Dict lookup `self.models.get(index)`. -/
def lookupSp (m : Spaces) (k : String) : Option ℕ :=
  (m.find? (fun p => p.1 = k)).map Prod.snd

/-- `align_models` (word2vec.py lines 235-304) at the registry level.
`alignFn source ref` abstracts `_align_single_model` (embedded in detail
above), returning the aligned space or `none` when alignment fails (fewer
than 10 usable common words, or a raised exception — both leave the entry
untouched). The loop iterates over `self.models.items()`; on success it
overwrites `self.models[index]` in place, on failure it only logs. Returns
`False` (registry untouched) only when the reference index is absent. -/
def align_models (alignFn : ℕ → ℕ → Option ℕ) (refIdx : String) (m : Spaces) :
    Bool × Spaces :=
  match lookupSp m refIdx with
  | none => (false, m)
  | some refSp =>
    let m2 := m.map (fun p =>
      if p.1 = refIdx then p
      else
        match alignFn p.2 refSp with
        | some sp => (p.1, sp)
        | none => p)
    (true, m2)

/-- `train_procrustes` (word2vec.py lines 654-722) at the registry level.
`trainFn idx` abstracts `train_model` (word2vec.py lines 70-176), whose only
registry effect is `self.models[index] = word2vec_model`; `none` means the
training raised and the per-index `except` swallowed it. After the training
loop, when more than one model is registered, everything is aligned to
`list(self.models.keys())[0]`. The run result is `successful_models > 0`
(`False` if `align_models` reported failure). The registry is never cleared
first: entries surviving from earlier runs stay in `self.models`. -/
def train_procrustes (trainFn : String → Option ℕ) (alignFn : ℕ → ℕ → Option ℕ)
    (papers : List String) (m : Spaces) : Bool × Spaces :=
  let step := papers.foldl (fun (acc : ℕ × Spaces) idx =>
    match trainFn idx with
    | some sp => (acc.1 + 1, upsert acc.2 idx sp)
    | none => acc) (0, m)
  if 1 < step.2.length then
    match step.2.head? with
    | some p =>
      let r := align_models alignFn p.1 step.2
      if r.1 then (0 < step.1, r.2) else (false, r.2)
    | none => (0 < step.1, step.2)
  else (0 < step.1, step.2)

/-- The successful JSON body of the `train-models` endpoint: the accepted
slice indexes and the echoed alignment method. -/
structure SubmitResponse where
  indexes : List String
  method : String
deriving DecidableEq

/-- The synchronous part of the `train_models` endpoint
(endpoints/word2vec.py lines 65-189): reject a method name other than
"procrustes"/"compass" with HTTP 400, reject an empty corpus with HTTP 400,
otherwise queue the background task and return HTTP 200 immediately. The
CADE availability flag is never consulted on this path. -/
def train_models (cadeAvailable : Bool) (method : String)
    (papers : List (String × List String)) : Except (ℕ × String) SubmitResponse :=
  if ¬(method = "procrustes" ∨ method = "compass") then
    Except.error (400, "Alignment method must be procrustes or compass")
  else if papers.isEmpty then
    Except.error (400, "No data found. Please upload data first.")
  else
    Except.ok ⟨papers.map Prod.fst, method⟩

/-- Whether an endpoint result is a 200 response rather than an HTTP error. -/
def isOkResp {E A : Type} : Except E A → Bool
  | Except.ok _ => true
  | Except.error _ => false

/-- Which trainer the background task dispatched to. -/
inductive Trainer where
  | cade
  | procrustes
deriving DecidableEq

/-- `_train_and_align_models_background` (endpoints/word2vec.py lines
192-341), reduced to its dispatch (lines 270-289) and terminal status (lines
305-326): method "compass" always runs `train_cade`, anything else runs
`train_procrustes`; the job record ends "completed" when the trainer returned
success and "failed" otherwise. Returns (trainer used, success, final job
status). -/
def background_run (env : CadeEnv) (method : String)
    (trainFn : String → Option ℕ) (alignFn : ℕ → ℕ → Option ℕ)
    (papers : List String) (fs : CadeFs) (m : Spaces) :
    Trainer × Bool × String :=
  if method = "compass" then
    let r := train_cade env papers fs
    (Trainer.cade, r.1, if r.1 then ("completed") else ("failed"))
  else
    let r := train_procrustes trainFn alignFn papers m
    (Trainer.procrustes, r.1, if r.1 then ("completed") else ("failed"))

/-- State touched by `clear_models`: the in-memory registry (`self.models`
and `self.reference_index`) and the persisted model files on disk. -/
structure ClearState where
  models : Spaces
  referenceIndex : Option String
  disk : List String
deriving DecidableEq

/-- `ModelManager.clear_models` (word2vec.py lines 755-777): clear the
in-memory registry, then delete and recreate the two model directories;
returns `False` only when a filesystem operation raises (the memory is
already cleared by then). -/
def clear_models (fsRaises : Bool) (st : ClearState) : Bool × ClearState :=
  let st1 : ClearState := { st with models := [], referenceIndex := none }
  if fsRaises then (false, st1)
  else (true, { st1 with disk := [] })

/-- The `DELETE /models` endpoint (endpoints/word2vec.py lines 439-453):
`models_cleared` in the response body is exactly the boolean returned by
`ModelManager.clear_models`. -/
def clear_models_endpoint (fsRaises : Bool) (st : ClearState) :
    (String × Bool) × ClearState :=
  let r := clear_models fsRaises st
  if r.1 then (("All models cleared successfully", true), r.2)
  else (("No models to clear", false), r.2)

/-- One entry of `related_terms` in the input of
`calculate_cosine_similarities`. -/
structure RelatedTerm where
  id : ℕ
  term : String
deriving DecidableEq

/-- One topic of the input of `calculate_cosine_similarities`. -/
structure Topic where
  id : ℕ
  name : String
  related_terms : List RelatedTerm
deriving DecidableEq

/-- One record appended by `calculate_cosine_similarities`; `α` is the
similarity value type (`ℝ` for the cosine instantiation). -/
structure SimRecord (α : Type) where
  main_topic : String
  related_term : String
  index : String
  similarity : Option α
  topic_id : ℕ
  term_id : ℕ
deriving DecidableEq

/-- The body of the innermost loop of `calculate_cosine_similarities`
(word2vec.py lines 485-521): one record per (topic, term, registry index);
`similarity` is `none` exactly when either word is missing from that index's
vocabulary (the vocabulary test on lines 488-489), otherwise
`simFn` — abstracting `model.wv.similarity` — applied to the two vectors. -/
def simRecordFor {V α : Type} (simFn : V → V → α) (t : Topic) (rt : RelatedTerm)
    (p : String × (String → Option V)) : SimRecord α :=
  match p.2 t.name, p.2 rt.term with
  | some u, some v => ⟨t.name, rt.term, p.1, some (simFn u v), t.id, rt.id⟩
  | _, _ => ⟨t.name, rt.term, p.1, none, t.id, rt.id⟩

/-- `calculate_cosine_similarities` (word2vec.py lines 462-523): early return
on an empty registry, otherwise three nested loops appending one record per
(topic, related term, registry index), in that order. The registry is the
ordered list of (index, vocabulary) pairs. -/
def calculate_cosine_similarities {V α : Type} (simFn : V → V → α)
    (models : List (String × (String → Option V))) (topics : List Topic) :
    List (SimRecord α) :=
  if models.isEmpty then []
  else
    topics.foldl (fun acc t =>
      t.related_terms.foldl (fun acc2 rt =>
        models.foldl (fun acc3 p => acc3 ++ [simRecordFor simFn t rt p]) acc2) acc) []

/-- Dot product of two real vectors. -/
def dotp {n : ℕ} (u v : Vec n ℝ) : ℝ := ∑ i, u i * v i

/-- Euclidean norm of a real vector. -/
noncomputable def vnorm {n : ℕ} (u : Vec n ℝ) : ℝ := Real.sqrt (dotp u u)

/-- Cosine similarity, the value `gensim`'s `wv.similarity` computes:
the dot product of the two vectors divided by the product of their norms. -/
noncomputable def cosineSim {n : ℕ} (u v : Vec n ℝ) : ℝ :=
  dotp u v / (vnorm u * vnorm v)

/-- Inverse table of the field with 11 elements. -/
def finInv11 : Fin 11 → Fin 11 := ![0, 1, 6, 4, 3, 9, 2, 8, 7, 5, 10]

/-- Carrier of the field with 11 elements used for concrete evaluations.
The embedding is parametric in the field; this one is chosen because all of
its operations reduce inside the Lean kernel (`ℚ` and `ZMod` do not: their
normalization and inverse go through well-founded `Nat.gcd` recursion).
Every concrete run below only manipulates the small integers
0, 2, 3, 5, 7, 9 and the exact division 30/10 = 3, on which arithmetic
modulo 11 agrees with exact real arithmetic, so the runs mirror the float
runs of the source. -/
structure F11 where
  val : Fin 11
deriving DecidableEq

instance : Fintype F11 :=
  Fintype.ofEquiv (Fin 11) ⟨F11.mk, F11.val, fun _ => rfl, fun _ => rfl⟩

instance : Zero F11 := ⟨⟨0⟩⟩

instance : One F11 := ⟨⟨1⟩⟩

instance : Add F11 := ⟨fun a b => ⟨a.val + b.val⟩⟩

instance : Mul F11 := ⟨fun a b => ⟨a.val * b.val⟩⟩

instance : Neg F11 := ⟨fun a => ⟨-a.val⟩⟩

instance : Inv F11 := ⟨fun a => ⟨finInv11 a.val⟩⟩

instance : Field F11 :=
  Field.ofMinimalAxioms F11 (by decide) (by decide) (by decide) (by decide) (by decide)
    (by decide) (by decide) (by decide) (by decide) ⟨0, 1, by decide⟩

/-- Alias fixing the concrete evaluation field. -/
abbrev K11 : Type := F11

/-- A concrete SVD oracle for 1-dimensional evaluations: it returns the pair
of 1×1 identity matrices (a valid SVD output shape; concrete evaluations only
need *some* oracle, since the claims under test do not depend on which
orthogonal factors numpy returns). -/
def svdId : Sq 1 K11 → Sq 1 K11 × Sq 1 K11 := fun _ => (fun _ _ => 1, fun _ _ => 1)

/-- Ten anchor words shared by the two concrete models below (the Procrustes
step refuses to run on fewer than 10). -/
def wlist : List String :=
  ["w0", "w1", "w2", "w3", "w4", "w5", "w6", "w7", "w8", "w9"]

/-- A concrete two-model store: model `0` (the source) maps every anchor word
`wi` to the 1-dimensional vector `3` and also knows the non-anchor word
"zzz" (vector `7`); model `1` (the target) maps every `wi` to `5`. Anchor
means differ (3 vs 5), so the fitted Procrustes transform `v ↦ v + 2` is not
the identity. -/
def cexStore : Store 1 K11 := fun r w =>
  if r = 0 then
    if w = "zzz" then some (fun _ => 7)
    else if wlist.contains w then some (fun _ => 3) else none
  else if r = 1 then
    if wlist.contains w then some (fun _ => 5) else none
  else none

/-- The concrete source model wrapper (wraps store reference `0`). -/
def srcModel : W2VModel := ⟨"s1", 0⟩

/-- The concrete target (reference) model wrapper (wraps store reference
`1`). -/
def tgtModel : W2VModel := ⟨"s0", 1⟩

/-- A concrete topic for similarity-matrix evaluations. -/
def topicCat : Topic := ⟨1, "cat", [⟨7, "dog"⟩]⟩

/-- A concrete one-word-vocabulary registry entry for similarity-matrix
evaluations: every word resolves to the all-ones vector. -/
def vocabOnes : String → Option (Vec 1 ℝ) := fun _ => some (fun _ => 1)

/-! ### Supporting lemmas -/

theorem writeAligned_ne_ref {d : ℕ} {K : Type} (ref : ℕ) (l : List (String × Vec d K)) :
    ∀ (st : Store d K) (r : ℕ), r ≠ ref → ∀ w, writeAligned st ref l r w = st r w := by
  induction l with
  | nil => intro st r _ w; rfl
  | cons p rest ih =>
    intro st r hr w
    cases p with
    | mk pw pv =>
      show writeAligned (storeWrite st ref pw pv) ref rest r w = st r w
      rw [ih _ r hr w]
      simp [storeWrite, hr]

theorem writeAligned_not_mem {d : ℕ} {K : Type} (ref : ℕ) (l : List (String × Vec d K)) :
    ∀ (st : Store d K) (w : String), w ∉ l.map Prod.fst →
      writeAligned st ref l ref w = st ref w := by
  induction l with
  | nil => intro st w _; rfl
  | cons p rest ih =>
    intro st w hw
    cases p with
    | mk pw pv =>
      simp only [List.map_cons, List.mem_cons, not_or] at hw
      obtain ⟨h1, h2⟩ := hw
      show writeAligned (storeWrite st ref pw pv) ref rest ref w = st ref w
      rw [ih _ w h2]
      simp [storeWrite, h1]

theorem writeAligned_mem_nodup {d : ℕ} {K : Type} (ref : ℕ)
    (l : List (String × Vec d K)) :
    ∀ (st : Store d K) (w : String) (v : Vec d K), (l.map Prod.fst).Nodup →
      (w, v) ∈ l → writeAligned st ref l ref w = some v := by
  induction l with
  | nil => intro st w v _ h; simp at h
  | cons p rest ih =>
    intro st w v hnd hmem
    cases p with
    | mk pw pv =>
      simp only [List.map_cons, List.nodup_cons] at hnd
      obtain ⟨hpw, hnd2⟩ := hnd
      rcases List.mem_cons.1 hmem with heq | hmem2
      · injection heq with hw hv
        subst hw
        subst hv
        show writeAligned (storeWrite st ref w v) ref rest ref w = some v
        rw [writeAligned_not_mem ref rest _ w hpw]
        simp [storeWrite]
      · exact ih _ w v hnd2 hmem2

theorem anchorPairs_length_eq {d : ℕ} {K : Type} (st : Store d K) (s t : W2VModel) :
    ∀ common : List String,
      (∀ w ∈ common, (st s.modelRef w).isSome = true ∧ (st t.modelRef w).isSome = true) →
      (anchorPairs st s t common).length = common.length := by
  intro common
  induction common with
  | nil => intro _; rfl
  | cons w ws ih =>
    intro h
    obtain ⟨h1, h2⟩ := h w (List.mem_cons_self _ _)
    have hrest := fun x hx => h x (List.mem_cons_of_mem _ hx)
    unfold anchorPairs
    rw [List.filterMap_cons]
    cases hsv : st s.modelRef w with
    | none => rw [hsv] at h1; simp at h1
    | some sv =>
      cases htv : st t.modelRef w with
      | none => rw [htv] at h2; simp at h2
      | some tv =>
        show ((sv, tv) :: anchorPairs st s t ws).length = ws.length + 1
        rw [List.length_cons, ih hrest]

theorem procrustes_align_length {d : ℕ} {K : Type} [Field K]
    (svd : Sq d K → Sq d K × Sq d K) (s t : List (Vec d K)) :
    (procrustes_align svd s t).length = s.length := by
  simp [procrustes_align, centerRows]

/-! ### Claim C1 -/

/-- Claim C1: for every pair of anchor-word matrices (source, target) of equal
shape, the Procrustes alignment step computes exactly: source and target
mean-centered over rows; `U, Vt` from the singular value decomposition of
`target_centered^T @ source_centered`; rotation `R = U @ Vt`; and returns
`source_centered @ R^T + mean(target, axis=0)`. Stated as: the code
translation `procrustes_align` coincides with `procrustes_align_specform`,
which is written from the spec's words, for every SVD oracle. -/
theorem C1_procrustes_align_matches_spec {d : ℕ} {K : Type} [Field K]
    (svd : Sq d K → Sq d K × Sq d K) (source target : List (Vec d K))
    (hshape : source.length = target.length) :
    procrustes_align svd source target = procrustes_align_specform svd source target := rfl

/-- Witness for C1 at a concrete equal-shape pair over the 11-element field. -/
theorem C1_procrustes_align_matches_spec_witness :
    ([fun _ => (3 : K11)] : List (Vec 1 K11)).length
        = ([fun _ => (5 : K11)] : List (Vec 1 K11)).length ∧
    procrustes_align svdId [fun _ => (3 : K11)] [fun _ => (5 : K11)]
        = procrustes_align_specform svdId [fun _ => (3 : K11)] [fun _ => (5 : K11)] :=
  ⟨rfl, C1_procrustes_align_matches_spec svdId [fun _ => (3 : K11)] [fun _ => (5 : K11)] rfl⟩

/-! ### Claim C2 -/

/-- Counterexample to claim C2 as stated: in a concrete Procrustes run over
ten anchor words, the non-anchor source word "zzz" keeps its pre-alignment
vector `7` unchanged, while the fitted rotation-plus-translation transform
would send it to `9` — so the transform is *not* applied to every vector of
the source space's vocabulary, and non-anchor words are not moved into the
rotated coordinate system. -/
theorem C2_nonanchor_not_transformed_cex :
    ((align_single_model svdId cexStore srcModel tgtModel wlist).1 0 ("zzz")
        = some (fun _ => (7 : K11))) ∧
    procrustes_transform svdId
        ((anchorPairs cexStore srcModel tgtModel wlist).map Prod.fst)
        ((anchorPairs cexStore srcModel tgtModel wlist).map Prod.snd)
        (fun _ => (7 : K11)) = (fun _ => (9 : K11)) ∧
    ((fun _ => (7 : K11)) : Vec 1 K11) ≠ (fun _ => (9 : K11)) := by decide

/-- Claim C2 (amended): the rotation-plus-translation transform is written
back only for the anchor (common-vocabulary) words; every word outside
`common_words` keeps its pre-alignment vector in the source model unchanged,
and every model other than the source model is untouched. -/
theorem C2_align_writes_only_anchor_words {d : ℕ} {K : Type} [Field K]
    (svd : Sq d K → Sq d K × Sq d K) (st : Store d K) (s t : W2VModel)
    (common : List String) :
    (∀ w, w ∉ common →
      (align_single_model svd st s t common).1 s.modelRef w = st s.modelRef w) ∧
    (∀ r, r ≠ s.modelRef → ∀ w,
      (align_single_model svd st s t common).1 r w = st r w) := by
  by_cases hlt : (anchorPairs st s t common).length < 10
  · constructor
    · intro w hw
      simp [align_single_model, hlt]
    · intro r hr w
      simp [align_single_model, hlt]
  · constructor
    · intro w hw
      have hnz : w ∉ ((common.zip (procrustes_align svd
          ((anchorPairs st s t common).map Prod.fst)
          ((anchorPairs st s t common).map Prod.snd))).map Prod.fst) := by
        intro hmem
        rcases List.mem_map.1 hmem with ⟨p, hp, hfst⟩
        rcases p with ⟨pw, pv⟩
        exact hw (hfst ▸ (List.of_mem_zip hp).1)
      simp only [align_single_model, if_neg hlt]
      exact writeAligned_not_mem s.modelRef _ st w hnz
    · intro r hr w
      simp only [align_single_model, if_neg hlt]
      exact writeAligned_ne_ref s.modelRef _ st r hr w

/-- Witness for the amended C2 at the concrete store: "zzz" is not an anchor
word and its vector survives alignment unchanged. -/
theorem C2_align_writes_only_anchor_words_witness :
    ("zzz" ∉ wlist) ∧
    (align_single_model svdId cexStore srcModel tgtModel wlist).1 srcModel.modelRef ("zzz")
      = cexStore srcModel.modelRef ("zzz") :=
  ⟨by decide,
    (C2_align_writes_only_anchor_words svdId cexStore srcModel tgtModel wlist).1
      ("zzz") (by decide)⟩

/-! ### Claim C3 -/

/-- Counterexample to claim C3 as stated: on the single document "abc a..",
the tokenizer keeps the raw token "a.." (its raw length 3 passes the
`len(token) > 2` filter) and only then strips the boundary punctuation,
leaving the sentence ["abc", "a"], which contains the token "a" of
length 1 ≤ 2. -/
theorem C3_short_token_cex :
    preprocess_texts [("abc a..").toList] = [[("abc").toList, ['a']]] ∧
    (['a'] : List Char).length ≤ 2 := by decide

/-- Claim C3 (amended): the tokenizer lower-cases, splits on whitespace,
discards tokens whose *raw* (pre-strip) length is ≤ 2, and then strips
boundary punctuation from each kept token, so stripped tokens of length ≤ 2
(or consisting only of punctuation) can remain; documents yielding zero kept
tokens are discarded. Stated as: every output sentence is nonempty, and every
output token is the punctuation-strip of a whitespace-delimited token of some
lower-cased input document whose raw length exceeds 2. -/
theorem C3_tokenizer_filters_before_strip (texts : List (List Char))
    (s : List (List Char)) (hs : s ∈ preprocess_texts texts) :
    s ≠ [] ∧ ∀ tok ∈ s, ∃ text ∈ texts, ∃ raw ∈ splitWs (text.map Char.toLower),
      2 < raw.length ∧ tok = pstrip raw := by
  rcases List.mem_filterMap.1 hs with ⟨text, htext, heq⟩
  simp only at heq
  by_cases hemp : (((splitWs (text.map Char.toLower)).filter
      (fun w => 2 < w.length)).map pstrip).isEmpty
  · rw [if_pos hemp] at heq
    exact absurd heq (by simp)
  · rw [if_neg hemp] at heq
    have hs2 : s = (((splitWs (text.map Char.toLower)).filter
        (fun w => 2 < w.length)).map pstrip) := (Option.some.inj heq).symm
    subst hs2
    constructor
    · intro hnil
      rw [hnil] at hemp
      simp at hemp
    · intro tok htok
      rcases List.mem_map.1 htok with ⟨raw, hraw, hstrip⟩
      rcases List.mem_filter.1 hraw with ⟨hrawmem, hlen⟩
      exact ⟨text, htext, raw, hrawmem, by simpa using hlen, hstrip.symm⟩

/-- Witness for the amended C3 at the concrete document "abcd efg". -/
theorem C3_tokenizer_filters_before_strip_witness :
    ([("abcd").toList, ("efg").toList] ∈ preprocess_texts [("abcd efg").toList]) ∧
    ([("abcd").toList, ("efg").toList] ≠ [] ∧
      ∀ tok ∈ [("abcd").toList, ("efg").toList],
        ∃ text ∈ [("abcd efg").toList],
          ∃ raw ∈ splitWs (text.map Char.toLower), 2 < raw.length ∧ tok = pstrip raw) :=
  ⟨by decide, C3_tokenizer_filters_before_strip [("abcd efg").toList]
    [("abcd").toList, ("efg").toList] (by decide)⟩

/-! ### Claim C4 -/

/-- Counterexample to claim C4 as stated: when compass training raises (one
of the failure paths), `train_cade` returns through the outer `except` and
the per-slice corpus file and the compass file created under `temp/` are NOT
removed. -/
theorem C4_temp_files_leak_on_failure_cex :
    (train_cade ⟨true, true, fun _ => false⟩ ["a"] ⟨[], []⟩).2.tempFiles
        = ["temp/cade_a.txt", "temp/compass.txt"] ∧
    (train_cade ⟨true, true, fun _ => false⟩ ["a"] ⟨[], []⟩).1 = false := by decide

/-- Claim C4 (amended): the temporary per-slice corpus files and the compass
file are removed before `train_cade` returns on the success path and on
per-slice training failures (which the inner `except` catches, so the run
still reaches the cleanup); but on the failure path where compass training
raises, the outer `except` returns without removing them. -/
theorem C4_temp_cleanup_only_on_noncompass_failure (env : CadeEnv)
    (papers : List String) (fs : CadeFs) (ha : env.cadeAvailable = true) :
    (env.compassRaises = false → (train_cade env papers fs).2.tempFiles = []) ∧
    (env.compassRaises = true → (train_cade env papers fs).2.tempFiles
        = fs.tempFiles ++ papers.map slicePath ++ ["temp/compass.txt"]) := by
  constructor
  · intro hc
    simp [train_cade, ha, hc]
  · intro hc
    simp [train_cade, ha, hc]

/-- Witness for the amended C4: with an available CADE library, a run whose
slice trainings all fail still removes the temp files, while a compass-raise
run leaves them on disk. -/
theorem C4_temp_cleanup_only_on_noncompass_failure_witness :
    (CadeEnv.cadeAvailable ⟨true, false, fun _ => true⟩ = true) ∧
    ((CadeEnv.compassRaises ⟨true, false, fun _ => true⟩ = false) →
      (train_cade ⟨true, false, fun _ => true⟩ ["a"] ⟨["temp/old.txt"], []⟩).2.tempFiles = []) :=
  ⟨rfl, (C4_temp_cleanup_only_on_noncompass_failure ⟨true, false, fun _ => true⟩
    ["a"] ⟨["temp/old.txt"], []⟩ rfl).1⟩

/-! ### Claim C5 -/

/-- Counterexample to claim C5 as stated: with the CADE library unavailable,
a `method="compass"` request is accepted synchronously (HTTP 200, the job is
queued) — no `Unavailable` error is surfaced before background work starts;
the failure only appears later as the background job's terminal "failed"
status. -/
theorem C5_unavailable_not_synchronous_cex :
    isOkResp (train_models false ("compass") [("a", ["x y z"])]) = true ∧
    background_run ⟨false, false, fun _ => false⟩ ("compass")
        (fun _ => some 0) (fun s _ => some s) ["a"] ⟨[], []⟩ []
      = (Trainer.cade, false, "failed") := by decide

/-- Claim C5 (amended): when the CADE engine is not installed, a
`method="compass"` request is still accepted synchronously (the synchronous
validation only checks the method name), the request is never downgraded to
the procrustes method (the background task still dispatches to the CADE
trainer), and the unavailability surfaces asynchronously as the job's
"failed" terminal status. -/
theorem C5_unavailable_fails_async_not_downgraded
    (papers : List (String × List String)) (idxs : List String)
    (trainFn : String → Option ℕ) (alignFn : ℕ → ℕ → Option ℕ)
    (fs : CadeFs) (m : Spaces) (env : CadeEnv)
    (hne : papers.isEmpty = false) (hcade : env.cadeAvailable = false) :
    train_models false ("compass") papers = Except.ok ⟨papers.map Prod.fst, "compass"⟩ ∧
    background_run env ("compass") trainFn alignFn idxs fs m
      = (Trainer.cade, false, "failed") := by
  constructor
  · simp [train_models, hne]
  · simp [background_run, train_cade, hcade]

/-- Witness for the amended C5 at a concrete one-slice corpus. -/
theorem C5_unavailable_fails_async_not_downgraded_witness :
    ([(("a" : String), ["x y z"])].isEmpty = false) ∧
    ((⟨false, false, fun _ => false⟩ : CadeEnv).cadeAvailable = false) ∧
    train_models false ("compass") [("a", ["x y z"])]
      = Except.ok ⟨["a"], "compass"⟩ :=
  ⟨rfl, rfl,
    (C5_unavailable_fails_async_not_downgraded [("a", ["x y z"])] ["a"]
      (fun _ => some 0) (fun s _ => some s) ⟨[], []⟩ [] ⟨false, false, fun _ => false⟩
      rfl rfl).1⟩

/-! ### Claim C6 -/

/-- Counterexample to claim C6 as stated: calling the clear endpoint twice in
a row (no filesystem errors) succeeds both times, but the second call — on
the already-empty registry — returns `models_cleared = true`, not `false`:
the flag reports whether `clear_models` succeeded, not whether anything was
deleted. -/
theorem C6_second_clear_returns_true_cex :
    (clear_models_endpoint false
        ⟨[("1990", 0)], some ("1990"), ["models/word2vec_1990.pkl"]⟩).1.2 = true ∧
    (clear_models_endpoint false
        (clear_models_endpoint false
          ⟨[("1990", 0)], some ("1990"), ["models/word2vec_1990.pkl"]⟩).2).1.2 = true := by
  decide

/-- Claim C6 (amended): calling `clear()` twice in a row succeeds both times
and clearing an empty registry is a no-op success, but both calls return
`models_cleared = true` (absent filesystem errors): the flag mirrors the
boolean success of `clear_models`, which does not depend on whether the
registry held any models. The operation is idempotent. -/
theorem C6_clear_idempotent_always_true (st : ClearState) :
    (clear_models_endpoint false st).1.2 = true ∧
    (clear_models_endpoint false st).2 = ⟨[], none, []⟩ ∧
    clear_models_endpoint false (clear_models_endpoint false st).2
      = clear_models_endpoint false st := by
  refine ⟨rfl, rfl, ?_⟩
  simp [clear_models_endpoint, clear_models]

/-! ### Registry bookkeeping lemmas -/

theorem mem_keys_upsert (m : Spaces) (k : String) (v : ℕ) (k' : String) :
    k' ∈ (upsert m k v).map Prod.fst ↔ k' ∈ m.map Prod.fst ∨ k' = k := by
  unfold upsert
  by_cases h : m.any (fun p => p.1 = k)
  · rw [if_pos h]
    have hkeys : (m.map (fun p => if p.1 = k then (k, v) else p)).map Prod.fst
        = m.map Prod.fst := by
      rw [List.map_map]
      apply List.map_congr_left
      intro p _
      by_cases hp : p.1 = k
      · simp [hp]
      · simp [hp]
    rw [hkeys]
    have hk : k ∈ m.map Prod.fst := by
      rcases List.any_eq_true.1 h with ⟨p, hp, hpk⟩
      exact List.mem_map.2 ⟨p, hp, of_decide_eq_true hpk⟩
    constructor
    · exact Or.inl
    · rintro (h1 | rfl)
      · exact h1
      · exact hk
  · rw [if_neg h]
    simp

theorem keys_align_models (alignFn : ℕ → ℕ → Option ℕ) (refIdx : String)
    (m : Spaces) : ((align_models alignFn refIdx m).2).map Prod.fst = m.map Prod.fst := by
  unfold align_models
  cases h : lookupSp m refIdx with
  | none => rfl
  | some refSp =>
    show (m.map _).map Prod.fst = m.map Prod.fst
    rw [List.map_map]
    apply List.map_congr_left
    intro p _
    by_cases hp : p.1 = refIdx
    · simp [hp]
    · simp only [Function.comp_apply, if_neg hp]
      cases alignFn p.2 refSp with
      | some sp => rfl
      | none => rfl

theorem mem_keys_trainFold (trainFn : String → Option ℕ) :
    ∀ (papers : List String) (acc : ℕ × Spaces) (idx : String),
      idx ∈ ((papers.foldl (fun acc i =>
          match trainFn i with
          | some sp => (acc.1 + 1, upsert acc.2 i sp)
          | none => acc) acc).2).map Prod.fst ↔
        idx ∈ (acc.2).map Prod.fst ∨ (idx ∈ papers ∧ (trainFn idx).isSome = true) := by
  intro papers
  induction papers with
  | nil =>
    intro acc idx
    simp
  | cons p ps ih =>
    intro acc idx
    rw [List.foldl_cons]
    by_cases hip : idx = p
    · subst hip
      cases hp : trainFn idx with
      | some sp =>
        rw [ih]
        rw [mem_keys_upsert]
        simp [hp]
      | none =>
        rw [ih]
        simp [hp]
    · cases hp : trainFn p with
      | some sp =>
        rw [ih]
        rw [mem_keys_upsert]
        simp only [List.mem_cons]
        constructor
        · rintro ((h1 | h2) | h3)
          · exact Or.inl h1
          · exact absurd h2 hip
          · exact Or.inr ⟨Or.inr h3.1, h3.2⟩
        · rintro (h1 | ⟨h2 | h2, h3⟩)
          · exact Or.inl (Or.inl h1)
          · exact absurd h2 hip
          · exact Or.inr ⟨h2, h3⟩
      | none =>
        rw [ih]
        simp only [List.mem_cons]
        constructor
        · rintro (h1 | h2)
          · exact Or.inl h1
          · exact Or.inr ⟨Or.inr h2.1, h2.2⟩
        · rintro (h1 | ⟨h2 | h2, h3⟩)
          · exact Or.inl h1
          · exact absurd h2 hip
          · exact Or.inr ⟨h2, h3⟩

theorem lookupSp_map_keyed (f : String × ℕ → String × ℕ)
    (hf : ∀ p, (f p).1 = p.1) (m : Spaces) (k : String) :
    lookupSp (m.map f) k
      = (m.find? (fun p => p.1 = k)).map (fun p => (f p).2) := by
  unfold lookupSp
  rw [List.find?_map]
  have hpred : ((fun p : String × ℕ => decide (p.1 = k)) ∘ f)
      = (fun p : String × ℕ => decide (p.1 = k)) := by
    funext p
    simp [Function.comp_apply, hf p]
  rw [hpred, Option.map_map]
  rfl

/-! ### Claim C7 -/

/-- Counterexample to claim C7 as stated: starting from a registry holding
slice "1980" produced by an earlier run, a new successful Procrustes run over
slices "1990" and "2000" leaves "1980" queryable in the registry — the prior
set is not replaced as a whole. -/
theorem C7_old_run_slice_still_queryable_cex :
    lookupSp (train_procrustes
        (fun i => if i = "1990" then some 1 else if i = "2000" then some 2 else none)
        (fun s _ => some s) ["1990", "2000"] [("1980", 0)]).2 ("1980") = some 0 ∧
    (train_procrustes
        (fun i => if i = "1990" then some 1 else if i = "2000" then some 2 else none)
        (fun s _ => some s) ["1990", "2000"] [("1980", 0)]).1 = true := by decide

/-- Claim C7 (amended): a run never clears the registry first: after
`train_procrustes`, a slice id is registered iff it was registered before the
run or it is an input slice whose training succeeded — spaces surviving from
earlier runs with other slice ids remain queryable alongside the new run's
spaces (and they also take part in the new run's alignment). -/
theorem ite_pair_snd {A B : Type} (c : Prop) [Decidable c] (a1 a2 : A) (b : B) :
    (if c then (a1, b) else (a2, b)).2 = b := by
  split
  · rfl
  · rfl

theorem C7_registry_is_union_of_old_and_new (trainFn : String → Option ℕ)
    (alignFn : ℕ → ℕ → Option ℕ) (papers : List String) (m : Spaces)
    (idx : String) :
    idx ∈ ((train_procrustes trainFn alignFn papers m).2).map Prod.fst ↔
      idx ∈ m.map Prod.fst ∨ (idx ∈ papers ∧ (trainFn idx).isSome = true) := by
  unfold train_procrustes
  by_cases h1 : 1 < (papers.foldl (fun acc i =>
      match trainFn i with
      | some sp => (acc.1 + 1, upsert acc.2 i sp)
      | none => acc) ((0 : ℕ), m)).2.length
  · rw [if_pos h1]
    cases hh : (papers.foldl (fun acc i =>
        match trainFn i with
        | some sp => (acc.1 + 1, upsert acc.2 i sp)
        | none => acc) ((0 : ℕ), m)).2.head? with
    | none =>
      exact mem_keys_trainFold trainFn papers ((0 : ℕ), m) idx
    | some p =>
      rw [ite_pair_snd]
      rw [keys_align_models]
      exact mem_keys_trainFold trainFn papers ((0 : ℕ), m) idx
  · rw [if_neg h1]
    exact mem_keys_trainFold trainFn papers ((0 : ℕ), m) idx

/-! ### Claim C9 -/

/-- Counterexample to claim C9 as stated: a Procrustes run over two fresh
slices where alignment of the non-reference slice "b" fails (the
`_align_single_model` result is `none`, as happens with fewer than 10 common
words) still reports overall success and KEEPS slice "b" in the registry with
its original unaligned space — the slice is not dropped from the set served
by the registry. -/
theorem C9_failed_alignment_slice_kept_cex :
    (train_procrustes
        (fun i => if i = "a" then some 10 else if i = "b" then some 20 else none)
        (fun _ _ => none) ["a", "b"] []).2 = [("a", 10), ("b", 20)] ∧
    (train_procrustes
        (fun i => if i = "a" then some 10 else if i = "b" then some 20 else none)
        (fun _ _ => none) ["a", "b"] []).1 = true := by decide

/-- Claim C9 (amended): when alignment of a non-reference slice fails (e.g.
fewer than 10 usable common words), the failure is non-fatal — `align_models`
still reports success — but the slice's space is NOT dropped from the
registry: its entry keeps the original, unaligned space; only the run's local
`aligned_models` set excludes it. -/
theorem C9_failed_slice_stays_unaligned (alignFn : ℕ → ℕ → Option ℕ)
    (refIdx : String) (m : Spaces) (idx : String) (sp refSp : ℕ)
    (hne : idx ≠ refIdx) (hm : lookupSp m idx = some sp)
    (href : lookupSp m refIdx = some refSp) (hfail : alignFn sp refSp = none) :
    (align_models alignFn refIdx m).1 = true ∧
    lookupSp (align_models alignFn refIdx m).2 idx = some sp := by
  have hf : ∀ p : String × ℕ, ((fun p : String × ℕ =>
      if p.1 = refIdx then p
      else
        match alignFn p.2 refSp with
        | some sp => (p.1, sp)
        | none => p) p).1 = p.1 := by
    intro p
    by_cases hp : p.1 = refIdx
    · simp [hp]
    · simp only [if_neg hp]
      cases alignFn p.2 refSp with
      | some sp => rfl
      | none => rfl
  constructor
  · unfold align_models
    rw [href]
  · unfold align_models
    rw [href]
    show lookupSp (m.map _) idx = some sp
    rw [lookupSp_map_keyed _ hf]
    unfold lookupSp at hm
    rcases Option.map_eq_some'.1 hm with ⟨q, hq, hq2⟩
    have hq0 := List.find?_some hq
    have hq1 : q.1 = idx := of_decide_eq_true hq0
    rw [hq]
    have hqne : ¬(q.1 = refIdx) := by
      rw [hq1]
      exact hne
    simp only [Option.map_some', if_neg hqne]
    rw [hq2.symm] at hfail
    cases hcase : alignFn q.2 refSp with
    | some sp2 =>
      rw [hcase] at hfail
      exact absurd hfail (by simp)
    | none =>
      simp only [hcase]
      rw [hq2]

/-- Witness for the amended C9 at a concrete two-slice registry whose
alignment function always fails. -/
theorem C9_failed_slice_stays_unaligned_witness :
    (("b" : String) ≠ "a") ∧
    lookupSp [("a", 10), ("b", 20)] ("b") = some 20 ∧
    lookupSp [("a", 10), ("b", 20)] ("a") = some 10 ∧
    lookupSp (align_models (fun _ _ => none) ("a") [("a", 10), ("b", 20)]).2 ("b") = some 20 :=
  ⟨by decide, by decide, by decide,
    (C9_failed_slice_stays_unaligned (fun _ _ => none) ("a") [("a", 10), ("b", 20)]
      ("b") 20 10 (by decide) (by decide) (by decide) rfl).2⟩

/-! ### Claim C10 -/

/-- Claim C10: for every non-reference slice aligned by the Procrustes
strategy, the aligned space returned by `_align_single_model` wraps the same
underlying model object as the source space (same store reference), and
writing the aligned anchor-word vectors mutates the pre-alignment trained
space in place: afterwards the source model object's anchor-word vectors
equal the aligned vectors (the pre-alignment anchor vectors are overwritten
and survive nowhere — models other than the source are untouched and the
wrapper holds no copy). -/
theorem C10_alignment_mutates_source_in_place {d : ℕ} {K : Type} [Field K]
    (svd : Sq d K → Sq d K × Sq d K) (st : Store d K) (s t : W2VModel)
    (common : List String)
    (hall : ∀ w ∈ common,
      (st s.modelRef w).isSome = true ∧ (st t.modelRef w).isSome = true)
    (hlen : 10 ≤ common.length) (hnd : common.Nodup) :
    (align_single_model svd st s t common).2 = some ⟨s.index, s.modelRef⟩ ∧
    (∀ w v, (w, v) ∈ common.zip (procrustes_align svd
        ((anchorPairs st s t common).map Prod.fst)
        ((anchorPairs st s t common).map Prod.snd)) →
      (align_single_model svd st s t common).1 s.modelRef w = some v) ∧
    (∀ r, r ≠ s.modelRef → ∀ w,
      (align_single_model svd st s t common).1 r w = st r w) := by
  have hplen : (anchorPairs st s t common).length = common.length :=
    anchorPairs_length_eq st s t common hall
  have hnlt : ¬((anchorPairs st s t common).length < 10) := by
    rw [hplen]
    omega
  have halen : common.length ≤ (procrustes_align svd
      ((anchorPairs st s t common).map Prod.fst)
      ((anchorPairs st s t common).map Prod.snd)).length := by
    rw [procrustes_align_length, List.length_map, hplen]
  refine ⟨?_, ?_, ?_⟩
  · simp only [align_single_model, if_neg hnlt]
  · intro w v hwv
    simp only [align_single_model, if_neg hnlt]
    apply writeAligned_mem_nodup
    · rw [List.map_fst_zip _ _ halen]
      exact hnd
    · exact hwv
  · intro r hr w
    simp only [align_single_model, if_neg hnlt]
    exact writeAligned_ne_ref _ _ _ _ hr w

/-- Witness for C10 at the concrete ten-anchor store: the returned wrapper
aliases the source model object (reference 0). -/
theorem C10_alignment_mutates_source_in_place_witness :
    (∀ w ∈ wlist, (cexStore srcModel.modelRef w).isSome = true ∧
        (cexStore tgtModel.modelRef w).isSome = true) ∧
    10 ≤ wlist.length ∧ wlist.Nodup ∧
    (align_single_model svdId cexStore srcModel tgtModel wlist).2
      = some ⟨srcModel.index, srcModel.modelRef⟩ :=
  ⟨by decide, by decide, by decide,
    (C10_alignment_mutates_source_in_place svdId cexStore srcModel tgtModel wlist
      (by decide) (by decide) (by decide)).1⟩

/-! ### Claim C8 -/

theorem foldl_append_single {β γ : Type} (g : β → γ) :
    ∀ (l : List β) (init : List γ),
      l.foldl (fun acc b => acc ++ [g b]) init = init ++ l.map g := by
  intro l
  induction l with
  | nil => intro init; simp
  | cons b bs ih =>
    intro init
    rw [List.foldl_cons, ih, List.map_cons]
    simp

theorem foldl_append_bind {β γ : Type} (f : β → List γ) :
    ∀ (l : List β) (init : List γ),
      l.foldl (fun acc b => acc ++ f b) init = init ++ l.flatMap f := by
  intro l
  induction l with
  | nil => intro init; simp
  | cons b bs ih =>
    intro init
    rw [List.foldl_cons, ih, List.flatMap_cons, List.append_assoc]

theorem calc_eq_bind {V α : Type} (simFn : V → V → α)
    (models : List (String × (String → Option V))) (topics : List Topic) :
    calculate_cosine_similarities simFn models topics
      = topics.flatMap (fun t => t.related_terms.flatMap (fun rt =>
          models.map (fun p => simRecordFor simFn t rt p))) := by
  unfold calculate_cosine_similarities
  by_cases hm : models.isEmpty
  · rw [if_pos hm]
    have hnil : models = [] := by
      cases models with
      | nil => rfl
      | cons p ps => simp at hm
    subst hnil
    simp
  · rw [if_neg hm]
    have houter : (fun (acc : List (SimRecord α)) (t : Topic) =>
        t.related_terms.foldl (fun acc2 rt =>
          models.foldl (fun acc3 p => acc3 ++ [simRecordFor simFn t rt p]) acc2) acc)
        = (fun (acc : List (SimRecord α)) (t : Topic) => acc ++ t.related_terms.flatMap (fun rt =>
            models.map (fun p => simRecordFor simFn t rt p))) := by
      funext acc t
      have hinner : (fun (acc2 : List (SimRecord α)) rt =>
          models.foldl (fun acc3 p => acc3 ++ [simRecordFor simFn t rt p]) acc2)
          = (fun acc2 rt => acc2 ++ models.map (fun p => simRecordFor simFn t rt p)) := by
        funext acc2 rt
        exact foldl_append_single _ models acc2
      rw [hinner, foldl_append_bind]
    rw [houter, foldl_append_bind]
    simp

theorem dotp_self_nonneg {n : ℕ} (u : Vec n ℝ) : 0 ≤ dotp u u :=
  Finset.sum_nonneg fun i _ => mul_self_nonneg (u i)

theorem abs_dotp_le {n : ℕ} (u v : Vec n ℝ) : |dotp u v| ≤ vnorm u * vnorm v := by
  have key : (dotp u v) ^ 2 ≤ dotp u u * dotp v v := by
    have h := Finset.sum_mul_sq_le_sq_mul_sq Finset.univ u v
    calc (dotp u v) ^ 2 = (∑ i, u i * v i) ^ 2 := rfl
      _ ≤ (∑ i, u i ^ 2) * (∑ i, v i ^ 2) := h
      _ = dotp u u * dotp v v := by
          unfold dotp
          congr 1
          · apply Finset.sum_congr rfl
            intro i _
            rw [sq]
          · apply Finset.sum_congr rfl
            intro i _
            rw [sq]
  calc |dotp u v| = Real.sqrt ((dotp u v) ^ 2) := (Real.sqrt_sq_eq_abs _).symm
    _ ≤ Real.sqrt (dotp u u * dotp v v) := Real.sqrt_le_sqrt key
    _ = Real.sqrt (dotp u u) * Real.sqrt (dotp v v) :=
        Real.sqrt_mul (dotp_self_nonneg u) _
    _ = vnorm u * vnorm v := rfl

theorem cosineSim_mem_Icc {n : ℕ} (u v : Vec n ℝ) :
    -1 ≤ cosineSim u v ∧ cosineSim u v ≤ 1 := by
  have habs : |dotp u v| ≤ vnorm u * vnorm v := abs_dotp_le u v
  have hnn : 0 ≤ vnorm u * vnorm v :=
    mul_nonneg (Real.sqrt_nonneg _) (Real.sqrt_nonneg _)
  rcases eq_or_lt_of_le hnn with h0 | hpos
  · unfold cosineSim
    rw [← h0, div_zero]
    norm_num
  · have hb : |cosineSim u v| ≤ 1 := by
      unfold cosineSim
      rw [abs_div, abs_of_pos hpos]
      exact (div_le_one hpos).2 habs
    exact abs_le.1 hb

/-- Claim C8: `calculate_cosine_similarities` never raises for
out-of-vocabulary words (it is a total function of the vocabulary lookups):
its output is exactly one record per (pair, slice) in input-pair order with
slice iteration order within each pair (the `bind` normal form), the record's
`similarity` is `null` exactly when either word is absent from that slice's
vocabulary, and otherwise it is a real number in `[-1, 1]`. -/
theorem C8_similarity_matrix_total_ordered_bounded {n : ℕ}
    (models : List (String × (String → Option (Vec n ℝ)))) (topics : List Topic) :
    calculate_cosine_similarities cosineSim models topics
      = topics.flatMap (fun t => t.related_terms.flatMap (fun rt =>
          models.map (fun p => simRecordFor cosineSim t rt p))) ∧
    (∀ (t : Topic) (rt : RelatedTerm) (p : String × (String → Option (Vec n ℝ))),
        (simRecordFor cosineSim t rt p).similarity = none ↔
          (p.2 t.name = none ∨ p.2 rt.term = none)) ∧
    (∀ (t : Topic) (rt : RelatedTerm) (p : String × (String → Option (Vec n ℝ)))
        (x : ℝ), (simRecordFor cosineSim t rt p).similarity = some x →
          -1 ≤ x ∧ x ≤ 1) := by
  refine ⟨calc_eq_bind cosineSim models topics, ?_, ?_⟩
  · intro t rt p
    unfold simRecordFor
    cases h1 : p.2 t.name with
    | none =>
      cases h2 : p.2 rt.term with
      | none => simp
      | some v => simp
    | some u =>
      cases h2 : p.2 rt.term with
      | none => simp
      | some v => simp
  · intro t rt p x h
    unfold simRecordFor at h
    revert h
    cases h1 : p.2 t.name with
    | none =>
      cases h2 : p.2 rt.term with
      | none => intro h; simp at h
      | some v => intro h; simp at h
    | some u =>
      cases h2 : p.2 rt.term with
      | none => intro h; simp at h
      | some v =>
        intro h
        have hx : cosineSim u v = x := Option.some.inj h
        rw [← hx]
        exact cosineSim_mem_Icc u v

/-- Witness for C8: a concrete record whose similarity is computed, applied
to the bound conjunct of the theorem. -/
theorem C8_similarity_matrix_witness :
    ((simRecordFor (cosineSim (n := 1)) topicCat ⟨7, "dog"⟩ ("i1", vocabOnes)).similarity
        = some (cosineSim ((fun _ => (1 : ℝ)) : Vec 1 ℝ) (fun _ => 1))) ∧
    (-1 ≤ cosineSim ((fun _ => (1 : ℝ)) : Vec 1 ℝ) (fun _ => 1) ∧
      cosineSim ((fun _ => (1 : ℝ)) : Vec 1 ℝ) (fun _ => 1) ≤ 1) :=
  ⟨rfl,
    (C8_similarity_matrix_total_ordered_bounded [("i1", vocabOnes)] [topicCat]).2.2
      topicCat ⟨7, "dog"⟩ ("i1", vocabOnes)
      (cosineSim ((fun _ => (1 : ℝ)) : Vec 1 ℝ) (fun _ => 1)) rfl⟩
